import Mathlib

/-!
Verification of the conversational document-refinement engine of the
AI-Writing-MPV repository.  The definitions below are shallow embeddings of
the TypeScript source (`src/unnamed/part_007`, the current
`services/geminiService.ts`, and `src/services/fileProcessing.ts`):
asynchronous effects are replaced by explicit scripts (lists of streamed
chunks, per-attempt operation outcomes), JavaScript strings by `String`,
and thrown errors by `Except` values.
-/

namespace MPV

/-! ## String helpers

JavaScript string primitives (`includes`, `startsWith`, `endsWith`) are
modelled on the character-list representation of `String` so that they are
executable and provable by structural induction. -/

/-- Model of `needle`-inside-`haystack` search on character lists
(JavaScript `String.prototype.includes`). -/
def hasInfix (pat : List Char) : List Char → Bool
  | [] => pat.isEmpty
  | a :: l => pat.isPrefixOf (a :: l) || hasInfix pat l

/-- `strContains s pat` models JavaScript `s.includes(pat)`. -/
def strContains (s pat : String) : Bool :=
  hasInfix pat.data s.data

/-- `strStartsWith s pat` models JavaScript `s.startsWith(pat)`. -/
def strStartsWith (s pat : String) : Bool :=
  pat.data.isPrefixOf s.data

/-- `strEndsWith s pat` models JavaScript `s.endsWith(pat)`. -/
def strEndsWith (s pat : String) : Bool :=
  pat.data.isSuffixOf s.data

/-- `isPre a b` holds when `a` is a prefix of `b` (used to state the
monotonic-streaming invariants). -/
def isPre (a b : String) : Bool :=
  a.data.isPrefixOf b.data

/-- Bool-valued chain predicate: every element of the list is related to its
successor.  Used for the prefix-monotonicity of streaming callbacks. -/
def chainRel (R : String → String → Bool) : List String → Bool
  | [] => true
  | [_] => true
  | a :: b :: l => R a b && chainRel R (b :: l)

/-! ## Error model and the resilient call wrapper (`callWithRetry`)

Source: `src/unnamed/part_007`, lines 16-62.  A thrown provider error is a
JavaScript object inspected through several alternative field paths; we
model exactly the fields the classifier reads.  An absent field is `none`
(respectively `""` for the string fields that the source defaults with
`|| ""`). -/

/-- The shape of a thrown provider error, as inspected by the source:
`error.status`, `error.code`, `error.error.code`, `error.error.status`,
`error.message`, `error.error.message`, `error.error.details[0].reason`. -/
structure JSError where
  status : Option Nat := none
  code : Option Nat := none
  nestedCode : Option Nat := none
  nestedStatus : String := ""
  message : String := ""
  nestedMessage : String := ""
  reason : String := ""
deriving DecidableEq

/-- JavaScript truthiness for an optional numeric field (`0` is falsy). -/
def jsTruthyNat : Option Nat → Option Nat
  | some 0 => none
  | some n => some n
  | none => none

/-- `error.status || error.code || error?.error?.code` (line 26). -/
def effStatus (e : JSError) : Option Nat :=
  match jsTruthyNat e.status with
  | some n => some n
  | none =>
    match jsTruthyNat e.code with
    | some n => some n
    | none => jsTruthyNat e.nestedCode

/-- `error.message || error?.error?.message || ""` (line 28). -/
def jsMessage (e : JSError) : String :=
  if e.message ≠ "" then e.message
  else if e.nestedMessage ≠ "" then e.nestedMessage
  else ""

/-- Credential-invalid classification (line 31):
`status === 400 && (message.includes("API key not valid") || reason === "API_KEY_INVALID")`. -/
def isCredentialError (e : JSError) : Bool :=
  effStatus e == some 400 &&
    (strContains (jsMessage e) "API key not valid" || e.reason == "API_KEY_INVALID")

/-- Retryable classification (lines 36-44). -/
def isRetryable (e : JSError) : Bool :=
  effStatus e == some 429 || effStatus e == some 503 || effStatus e == some 500 ||
  e.nestedStatus == "RESOURCE_EXHAUSTED" ||
  strContains (jsMessage e) "429" || strContains (jsMessage e) "Quota" ||
  strContains (jsMessage e) "overloaded" || strContains (jsMessage e) "RESOURCE_EXHAUSTED"

/-- Message of the fresh error thrown on an invalid API key (line 33). -/
def credMsg : String :=
  "API 金鑰無效 (Invalid API Key)。請檢查您的部署設定與環境變數 (API_KEY)。"

/-- Message of the fresh error thrown when retries are exhausted (line 55). -/
def quotaMsg : String :=
  "系統目前使用量較大或已達額度上限 (Quota Exceeded)，請稍後再試。"

/-- Message of the fresh error thrown when the loop never ran (line 61). -/
def maxRetriesMsg : String :=
  "Max retries exceeded for Gemini API call."

/-- An error escaping `callWithRetry`: either the raw provider error is
rethrown unchanged, or a fresh `new Error(msg)` is raised. -/
inductive RetryError where
  | raw (e : JSError)
  | fresh (msg : String)
deriving DecidableEq

/-- The message carried by an escaped error (`error.message` in a caller's
catch block). -/
def RetryError.message : RetryError → String
  | .raw e => e.message
  | .fresh m => m

/-- Observable trace of one `callWithRetry` execution: how many times the
wrapped operation was invoked, the backoff delays awaited between attempts,
and the final outcome. -/
structure RetryTrace (α : Type) where
  calls : Nat
  delays : List Rat
  result : Except RetryError α

/-- The `while (attempt < retries)` loop of `callWithRetry` (lines 21-60).
`fn attempt` is the outcome of the attempt-th invocation of the wrapped
operation; `jitter attempt` stands for the `Math.random() * 1000` summand of
that attempt's backoff delay.  The fuel argument equals
`retries - attempt`, which strictly decreases on every retry. -/
def callWithRetryGo {α : Type} (fn : Nat → Except JSError α) (jitter : Nat → Rat)
    (retries : Nat) (initialDelay : Rat) (attempt fuel : Nat) : RetryTrace α :=
  match fuel with
  | 0 => ⟨0, [], .error (.fresh maxRetriesMsg)⟩
  | f + 1 =>
    match fn attempt with
    | .ok v => ⟨1, [], .ok v⟩
    | .error e =>
      if isCredentialError e then ⟨1, [], .error (.fresh credMsg)⟩
      else if isRetryable e then
        if attempt < retries - 1 then
          let d := initialDelay * 2 ^ attempt + jitter attempt
          let r := callWithRetryGo fn jitter retries initialDelay (attempt + 1) f
          ⟨r.calls + 1, d :: r.delays, r.result⟩
        else ⟨1, [], .error (.fresh quotaMsg)⟩
      else ⟨1, [], .error (.raw e)⟩

/-- `callWithRetry(fn, retries, initialDelay)` (lines 16-62), with the
source defaults `retries = 3`, `initialDelay = 3000` supplied by callers. -/
def callWithRetry {α : Type} (fn : Nat → Except JSError α) (jitter : Nat → Rat)
    (retries : Nat) (initialDelay : Rat) : RetryTrace α :=
  callWithRetryGo fn jitter retries initialDelay 0 retries

/-! ## Context retrieval (`retrieveContext`)

Source: `src/unnamed/part_007`, lines 68-78.  `GRI_KNOWLEDGE_BASE` lives in
`data/griStandards`, which is not part of the given sources, so the lookup
table is a parameter `kb` mapping a standard identifier to the `text` field
of its knowledge chunk (`none` when the identifier has no entry).
`StandardType` is a TypeScript string enum, modelled as `String`.  The
source normalises a single standard into a one-element array; we model the
array case, which is what the claims quantify over. -/

/-- `Array.prototype.join(sep)`. -/
def joinWith (sep : String) : List String → String
  | [] => ""
  | [x] => x
  | x :: y :: ys => x ++ sep ++ joinWith sep (y :: ys)

/-- The block contributed by one standard identifier (lines 73-76). -/
def contextBlock (kb : String → Option String) (std : String) : String :=
  match kb std with
  | some text => "### [Standard: " ++ std ++ "]\n" ++ text
  | none => "### [Standard: " ++ std ++ "]\n(No standard text found in knowledge base.)"

/-- `retrieveContext` (lines 68-78): one block per element of the incoming
array, joined with blank lines. -/
def retrieveContext (kb : String → Option String) (standards : List String) : String :=
  if standards.length = 0 then ""
  else joinWith "\n\n" (standards.map (contextBlock kb))

/-! ## File extraction (`processFile`) and request assembly

Source: `src/services/fileProcessing.ts`, lines 17-79, and the file-segment
assembly of `generateReport` (`src/unnamed/part_007`, lines 122-131).
The third-party extraction libraries (base64 encoding, `mammoth`, `XLSX`,
`TextDecoder`) are oracles supplied as parameters; a parse failure of
`mammoth`/`XLSX` is an `Except.error`, which the source catches. -/

/-- `{ mimeType, data }` inline binary payload. -/
structure InlineData where
  mimeType : String
  data : String
deriving DecidableEq

/-- `ProcessedPart` (fileProcessing.ts, lines 4-10). -/
structure ProcessedPart where
  text : Option String := none
  inlineData : Option InlineData := none
deriving DecidableEq

/-- An uploaded file: name, declared media type (`file.type`), byte
content. -/
structure FileModel where
  name : String
  mimeType : String
  bytes : List Nat
deriving DecidableEq

/-- The extraction back-ends `processFile` delegates to.  `mammoth` returns
the raw docx text, `xlsxRead` the `(sheetName, csv)` list of a workbook;
both may fail, which the source catches.  `toBase64` and `decodeText`
cannot fail in the source's data path. -/
structure ExtractOracles where
  toBase64 : List Nat → String
  mammoth : List Nat → Except String String
  xlsxRead : List Nat → Except String (List (String × String))
  decodeText : List Nat → String

/-- Is an extraction outcome a failure? -/
def isErrResult {ε α : Type} : Except ε α → Bool
  | .error _ => true
  | .ok _ => false

/-- The diagnostic placeholder emitted when a docx/xlsx parse throws
(fileProcessing.ts, lines 49 and 68). -/
def errorPlaceholder (name : String) : String :=
  "[Error parsing file: " ++ name ++ "]"

/-- `processFile` (fileProcessing.ts, lines 17-79). -/
def processFile (o : ExtractOracles) (f : FileModel) : ProcessedPart :=
  if f.mimeType = "application/pdf" then
    { inlineData := some ⟨"application/pdf", o.toBase64 f.bytes⟩ }
  else if strStartsWith f.mimeType "image/" then
    { inlineData := some ⟨f.mimeType, o.toBase64 f.bytes⟩ }
  else if strEndsWith f.name ".docx" then
    match o.mammoth f.bytes with
    | .ok v =>
      { text := some ("\n[Attached File Content: " ++ f.name ++ "]\n" ++ v ++
          "\n[End of File: " ++ f.name ++ "]\n") }
    | .error _ => { text := some (errorPlaceholder f.name) }
  else if strEndsWith f.name ".xlsx" || strEndsWith f.name ".xls" then
    match o.xlsxRead f.bytes with
    | .ok sheets =>
      let csvContent := sheets.foldl
        (fun acc s =>
          if s.2.trim ≠ "" then acc ++ "[Sheet: " ++ s.1 ++ "]\n" ++ s.2 ++ "\n" else acc) ""
      { text := some ("\n[Attached File Content: " ++ f.name ++ "]\n" ++ csvContent ++
          "\n[End of File: " ++ f.name ++ "]\n") }
    | .error _ => { text := some (errorPlaceholder f.name) }
  else if strStartsWith f.mimeType "text/" then
    { text := some ("\n[Attached File Content: " ++ f.name ++ "]\n" ++
        o.decodeText f.bytes ++ "\n") }
  else
    { text := some ("[Skipped unsupported file: " ++ f.name ++ "]") }

/-- One request segment: literal/extracted text or inline binary content. -/
inductive RequestPart where
  | text (s : String)
  | inline (d : InlineData)
deriving DecidableEq

/-- Mapping of a processed part onto a request segment
(`p.inlineData ? { inlineData: p.inlineData } : { text: p.text || '' }`,
part_007 line 130). -/
def toRequestPart (p : ProcessedPart) : RequestPart :=
  match p.inlineData with
  | some d => .inline d
  | none => .text (p.text.getD "")

/-- The file segments `generateReport` assembles, in input order
(part_007, lines 122-131; `Promise.all` preserves order). -/
def fileSegments (o : ExtractOracles) (files : List FileModel) : List RequestPart :=
  (files.map (processFile o)).map toRequestPart

/-- The branch conditions under which `processFile` can produce the
diagnostic placeholder: the file reaches the docx (resp. xlsx) branch and
the corresponding parser fails. -/
def failsExtraction (o : ExtractOracles) (f : FileModel) : Bool :=
  !(f.mimeType == "application/pdf") && !(strStartsWith f.mimeType "image/") &&
  ((strEndsWith f.name ".docx" && isErrResult (o.mammoth f.bytes)) ||
   (!(strEndsWith f.name ".docx") &&
    (strEndsWith f.name ".xlsx" || strEndsWith f.name ".xls") &&
    isErrResult (o.xlsxRead f.bytes)))

/-! ## Streamed generation (`generateReport`)

Source: `src/unnamed/part_007`, lines 138-193.  A streamed response is a
list of chunks; a chunk carries its text delta (`""` models an absent or
empty `chunk.text`, both falsy) and, optionally, the grounding metadata of
`chunk.candidates[0]`. -/

/-- A cited web source: `chunk.web.uri` / `chunk.web.title`. -/
structure WebRef where
  uri : String
  title : String
deriving DecidableEq

/-- One entry of `groundingMetadata.groundingChunks`. -/
structure GroundingChunk where
  web : Option WebRef
deriving DecidableEq

/-- `groundingMetadata`; `groundingChunks` may be absent. -/
structure GroundingMeta where
  groundingChunks : Option (List GroundingChunk)
deriving DecidableEq

/-- One streamed chunk of `generateContentStream`. -/
structure GenChunk where
  text : String
  groundingMetadata : Option GroundingMeta
deriving DecidableEq

/-- The streamed-text accumulator of the for-await loop (lines 154-161):
skip falsy chunk texts, append the rest to the running accumulator, and
pass the full accumulated text to the streaming callback on each append.
Returns the final accumulated text and the successive callback values. -/
def accumTexts : String → List String → String × List String
  | init, [] => (init, [])
  | init, t :: ts =>
    if t = "" then accumTexts init ts
    else
      let acc := init ++ t
      let r := accumTexts acc ts
      (r.1, acc :: r.2)

/-- `finalGroundingMetadata` captured across the chunks (lines 163-167):
the last chunk carrying metadata wins. -/
def finalGrounding (chunks : List GenChunk) : Option GroundingMeta :=
  chunks.foldl
    (fun acc c =>
      match c.groundingMetadata with
      | some m => some m
      | none => acc) none

/-- ``- [title](uri)`` source-list entry (line 176). -/
def sourceEntry (w : WebRef) : String :=
  "- [" ++ w.title ++ "](" ++ w.uri ++ ")"

/-- One step of the `forEach` over `groundingChunks` (lines 174-182); the
state is `(uniqueSources, sourceList)` with the `Set` modelled as the list
of uris added so far. -/
def collectStep (acc : List String × List String) (c : GroundingChunk) :
    List String × List String :=
  match c.web with
  | some w =>
    if w.uri ≠ "" ∧ w.title ≠ "" then
      if w.uri ∈ acc.1 then acc else (w.uri :: acc.1, acc.2 ++ [sourceEntry w])
    else acc
  | none => acc

/-- The `(uniqueSources, sourceList)` produced from the grounding chunks
(lines 170-182). -/
def collectSources (gcs : List GroundingChunk) : List String × List String :=
  gcs.foldl collectStep ([], [])

/-- Header of the appended sources section (line 185). -/
def sourcesHeader : String :=
  "\n\n### Google Search Sources (資料來源)\n"

/-- The source list extracted from a full stream of chunks: empty when no
metadata was captured or it has no `groundingChunks` (lines 170, 184). -/
def sourceLinesOf (chunks : List GenChunk) : List String :=
  match finalGrounding chunks with
  | some m =>
    match m.groundingChunks with
    | some gcs => (collectSources gcs).2
    | none => []
  | none => []

/-- Pure model of the streaming body of `generateReport` (lines 151-193):
returns the final text and the successive values passed to the streaming
callback.  When the source list is non-empty, the sources section is
appended once and the extended text is re-emitted once. -/
def genStream (chunks : List GenChunk) : String × List String :=
  let s := accumTexts "" (chunks.map (fun c => c.text))
  let lines := sourceLinesOf chunks
  if lines = [] then s
  else
    let full := s.1 ++ (sourcesHeader ++ joinWith "\n" lines)
    (full, s.2 ++ [full])

/-- Specification-side view of the source's uri/title validity check
(`chunk.web?.uri && chunk.web?.title`). -/
def validWeb (c : GroundingChunk) : Option WebRef :=
  match c.web with
  | some w => if w.uri ≠ "" ∧ w.title ≠ "" then some w else none
  | none => none

/-- All valid cited references of a grounding-chunk list, in order. -/
def validRefs (gcs : List GroundingChunk) : List WebRef :=
  gcs.filterMap validWeb

/-- Specification-side first-seen deduplication keyed on the locator:
keeps the first occurrence of each uri, in encounter order. -/
def firstSeenRefs (seen : List String) : List WebRef → List WebRef
  | [] => []
  | w :: ws =>
    if w.uri ∈ seen then firstSeenRefs seen ws
    else w :: firstSeenRefs (w.uri :: seen) ws

/-- The grounding chunks the source-list pass iterates over. -/
def groundingListOf (chunks : List GenChunk) : List GroundingChunk :=
  match finalGrounding chunks with
  | some m => m.groundingChunks.getD []
  | none => []

/-- A concrete stream: two text deltas around a skipped empty delta, and
grounding metadata carrying a duplicated locator. -/
def sampleGenChunks : List GenChunk :=
  [⟨"Hello", none⟩, ⟨"", none⟩,
   ⟨" world", some ⟨some [⟨some ⟨"u1", "T1"⟩⟩, ⟨some ⟨"u1", "T2"⟩⟩,
     ⟨some ⟨"u2", "T3"⟩⟩, ⟨none⟩]⟩⟩]

/-! ## Dialogue session (`ReportAssistant.sendMessage`)

Source: `src/unnamed/part_007`, lines 248-329.  One turn performs up to two
streamed exchanges with the model: the user turn itself, and - when an
`updateReport` tool call was captured - the acknowledgment round-trip.
Both are driven through `callWithRetry`; we model each exchange's outcome
as an `Except RetryError (List ChatChunk)` script: either the classified
error escaping the retry wrapper, or the list of streamed chunks.
The input-part assembly (processed attachments followed by the literal
user text, lines 254-264) does not influence any output modelled here and
is kept abstract. -/

/-- A structured tool invocation `{name, args.newContent, id}` as the
source reads it (lines 289-297). -/
structure FunctionCall where
  name : String
  newContent : String
  id : String
deriving DecidableEq

/-- One streamed chat chunk: its text delta (`""` for an absent, falsy
`chunk.text`) and its `functionCalls` list. -/
structure ChatChunk where
  text : String
  functionCalls : List FunctionCall
deriving DecidableEq

/-- The `functionResponse` part sent back to acknowledge a tool call
(lines 293-299). -/
structure Ack where
  name : String
  result : String
  id : String
deriving DecidableEq

/-- Everything a `sendMessage` turn returns or observably emits: the
returned `{responseText, updatedReport}`, the successive values passed to
the streaming callback, and the acknowledgment parts sent back to the
model. -/
structure SendResult where
  responseText : String
  updatedReport : Option String
  emissions : List String
  acks : List Ack
deriving DecidableEq

/-- The per-chunk capture of lines 281-283: whenever a chunk carries a
non-empty `functionCalls` list, remember its first element (a later such
chunk overwrites an earlier capture). -/
def captureStep (acc : Option FunctionCall) (c : ChatChunk) : Option FunctionCall :=
  match c.functionCalls with
  | [] => acc
  | f :: _ => some f

/-- The function call captured over a whole stream (lines 270-284). -/
def capturedCall (chunks : List ChatChunk) : Option FunctionCall :=
  chunks.foldl captureStep none

/-- Fixed reply when the post-acknowledgment narration is empty
(line 317). -/
def fallbackText : String := "報告已更新。"

/-- Generic apology returned by the catch block for unrecognized errors
(line 327). -/
def apologyText : String := "抱歉，處理您的請求時發生錯誤。"

/-- The catch-block test of line 324:
`error.message && (includes('Quota') || includes('API 金鑰無效') || includes('系統'))`. -/
def catchCond (m : String) : Bool :=
  !(m == "") &&
    (strContains m "Quota" || strContains m "API 金鑰無效" || strContains m "系統")

/-- The catch block of lines 322-328: the returned object carries only
`responseText` - any extracted `updatedReport` is dropped, and nothing
further is emitted or acknowledged. -/
def catchResult (e : RetryError) : SendResult :=
  if catchCond e.message then ⟨e.message, none, [], []⟩
  else ⟨apologyText, none, [], []⟩

/-- Pure model of `ReportAssistant.sendMessage` (lines 248-329).
`first` scripts the user-turn exchange, `second` the acknowledgment
round-trip (consulted only when an `updateReport` call was captured). -/
def sendMessagePure (first second : Except RetryError (List ChatChunk)) : SendResult :=
  match first with
  | .error e => catchResult e
  | .ok chunks =>
    let s1 := accumTexts "" (chunks.map (fun c => c.text))
    match capturedCall chunks with
    | some fc =>
      if fc.name = "updateReport" then
        let ack : Ack := ⟨fc.name, "Success", fc.id⟩
        match second with
        | .error e =>
          let r := catchResult e
          { r with emissions := s1.2, acks := [ack] }
        | .ok chunks2 =>
          let s2 := accumTexts "" (chunks2.map (fun c => c.text))
          ⟨if s2.1 = "" then fallbackText else s2.1, some fc.newContent,
            s1.2 ++ "" :: s2.2, [ack]⟩
      else ⟨s1.1, none, s1.2, []⟩
    | none => ⟨s1.1, none, s1.2, []⟩

end MPV

namespace MPV

/-! ## Theorems -/

/-- A constructor-level fact: a fresh (`new Error(...)`) condition is never
the raw provider error. -/
theorem fresh_ne_raw (m : String) (e : JSError) :
    RetryError.fresh m ≠ RetryError.raw e := by
  intro h
  exact RetryError.noConfusion h

/-- A rate-limit / overload / server-error status cannot satisfy the
credential-invalid classification, whose first conjunct pins the effective
status to 400. -/
theorem isCredentialError_eq_false (e : JSError)
    (h : effStatus e = some 429 ∨ effStatus e = some 503 ∨ effStatus e = some 500) :
    isCredentialError e = false := by
  rcases h with h | h | h <;> simp [isCredentialError, h]

/-- A rate-limit / overload / server-error status is classified retryable. -/
theorem isRetryable_eq_true (e : JSError)
    (h : effStatus e = some 429 ∨ effStatus e = some 503 ∨ effStatus e = some 500) :
    isRetryable e = true := by
  rcases h with h | h | h <;> simp [isRetryable, h]

/-- C5: an operation that throws a retryable (429 rate-limit, 503 overload,
or 500 server-side) error on every call is invoked exactly 3 times by
`callWithRetry` with the default of 3 attempts, with backoff delays
`initialDelay * 2 ^ attempt + jitter` between attempts, after which the
distinct quota/overload-exhausted condition is raised - never the raw
underlying error. -/
theorem callWithRetry_retryable_exhausts {α : Type} (e : JSError)
    (jitter : Nat → Rat) (d : Rat)
    (h : effStatus e = some 429 ∨ effStatus e = some 503 ∨ effStatus e = some 500) :
    callWithRetry (fun _ => (Except.error e : Except JSError α)) jitter 3 d =
      ⟨3, [d * 2 ^ 0 + jitter 0, d * 2 ^ 1 + jitter 1],
        Except.error (RetryError.fresh quotaMsg)⟩ ∧
    Except.error (RetryError.fresh quotaMsg) ≠
      (Except.error (RetryError.raw e) : Except RetryError α) := by
  have hc := isCredentialError_eq_false e h
  have hr := isRetryable_eq_true e h
  constructor
  · simp [callWithRetry, callWithRetryGo, hc, hr]
  · intro hcontra
    rw [Except.error.injEq] at hcontra
    exact RetryError.noConfusion hcontra

/-- Witness for C5 at a concrete 429 error with zero jitter. -/
theorem callWithRetry_retryable_exhausts_witness :
    (effStatus { status := some 429 } = some 429 ∨
     effStatus { status := some 429 } = some 503 ∨
     effStatus { status := some 429 } = some 500) ∧
    (callWithRetry (fun _ => (Except.error { status := some 429 } : Except JSError Unit))
        (fun _ => 0) 3 1 =
      ⟨3, [1 * 2 ^ 0 + 0, 1 * 2 ^ 1 + 0], Except.error (RetryError.fresh quotaMsg)⟩ ∧
      Except.error (RetryError.fresh quotaMsg) ≠
        (Except.error (RetryError.raw { status := some 429 }) : Except RetryError Unit)) :=
  ⟨Or.inl (by decide),
   callWithRetry_retryable_exhausts { status := some 429 } (fun _ => 0) 1
     (Or.inl (by decide))⟩

/-- C6: an operation that throws a credential-invalid (invalid API key)
error on its first call is invoked exactly once (no backoff delay is ever
awaited), and `callWithRetry` immediately raises the distinct user-facing
credential-invalid condition. -/
theorem callWithRetry_credential_immediate {α : Type} (e : JSError)
    (jitter : Nat → Rat) (retries : Nat) (d : Rat)
    (h1 : 1 ≤ retries) (h2 : isCredentialError e = true) :
    callWithRetry (fun _ => (Except.error e : Except JSError α)) jitter retries d =
      ⟨1, [], Except.error (RetryError.fresh credMsg)⟩ ∧
    Except.error (RetryError.fresh credMsg) ≠
      (Except.error (RetryError.raw e) : Except RetryError α) := by
  obtain ⟨f, rfl⟩ : ∃ f, retries = f + 1 := ⟨retries - 1, by omega⟩
  constructor
  · simp [callWithRetry, callWithRetryGo, h2]
  · intro hcontra
    rw [Except.error.injEq] at hcontra
    exact RetryError.noConfusion hcontra

/-- Witness for C6 at a concrete invalid-API-key error. -/
theorem callWithRetry_credential_immediate_witness :
    (1 ≤ 3 ∧
      isCredentialError { status := some 400, message := "API key not valid" } = true) ∧
    (callWithRetry
        (fun _ => (Except.error { status := some 400, message := "API key not valid" } :
          Except JSError Unit)) (fun _ => 0) 3 1 =
      ⟨1, [], Except.error (RetryError.fresh credMsg)⟩ ∧
      Except.error (RetryError.fresh credMsg) ≠
        (Except.error (RetryError.raw
          { status := some 400, message := "API key not valid" }) :
            Except RetryError Unit)) :=
  ⟨⟨by decide, by decide⟩,
   callWithRetry_credential_immediate { status := some 400, message := "API key not valid" }
     (fun _ => 0) 3 1 (by decide) (by decide)⟩

/-- C9 counterexample: with an empty knowledge base, retrieving the context
for a list containing the same standard twice yields a different context
text than retrieving it for the deduplicated list - duplicates are not
idempotent. -/
theorem retrieveContext_dup_counterexample :
    retrieveContext (fun _ => none) ["GRI 305-1", "GRI 305-1"] ≠
      retrieveContext (fun _ => none) (List.dedup ["GRI 305-1", "GRI 305-1"]) := by
  decide

/-- C9 (amended): duplicate standard identifiers are not idempotent - each
occurrence contributes its own context block, so adding a duplicate
occurrence always changes (strictly lengthens) the assembled context. -/
theorem retrieveContext_dup_changes_context (kb : String → Option String)
    (std : String) (l : List String) :
    retrieveContext kb (std :: std :: l) ≠ retrieveContext kb (std :: l) := by
  have h1 : retrieveContext kb (std :: std :: l) =
      contextBlock kb std ++ "\n\n" ++ retrieveContext kb (std :: l) := by
    simp [retrieveContext, joinWith]
  rw [h1]
  intro hcontra
  have hlen := congrArg String.length hcontra
  rw [String.length_append, String.length_append] at hlen
  have h2 : ("\n\n" : String).length = 2 := rfl
  omega

/-- Two strings of different length differ. -/
theorem str_len_ne {a b : String} (h : a.length ≠ b.length) : a ≠ b :=
  fun hc => h (congrArg String.length hc)

/-- A string of length zero is the empty string. -/
theorem str_length_zero {s : String} (h : s.length = 0) : s = "" := by
  cases s with
  | mk d =>
    cases d with
    | nil => rfl
    | cons c cs => simp [String.length] at h

/-- The last element of a list is a member. -/
theorem mem_of_getLast? : ∀ (l : List String) (a : String),
    l.getLast? = some a → a ∈ l := by
  intro l
  induction l with
  | nil => intro a h; simp at h
  | cons x l ih =>
    intro a h
    cases l with
    | nil =>
      obtain rfl : a = x := by simpa using h.symm
      exact List.mem_cons_self _ _
    | cons x2 l2 =>
      rw [List.getLast?_cons_cons] at h
      exact List.mem_cons_of_mem _ (ih a h)

/-- A failing extraction outcome is an `Except.error`. -/
theorem isErrResult_true {ε α : Type} {x : Except ε α} (h : isErrResult x = true) :
    ∃ e, x = .error e := by
  cases x with
  | error e => exact ⟨e, rfl⟩
  | ok v => simp [isErrResult] at h

/-- When a file hits the docx/xlsx branch and the parser fails, `processFile`
returns exactly the diagnostic placeholder naming the file - it does not
raise. -/
theorem processFile_of_fails (o : ExtractOracles) (f : FileModel)
    (h : failsExtraction o f = true) :
    processFile o f = { text := some (errorPlaceholder f.name), inlineData := none } := by
  rw [failsExtraction] at h
  simp only [Bool.and_eq_true, Bool.or_eq_true, Bool.not_eq_true',
    beq_eq_false_iff_ne, ne_eq] at h
  obtain ⟨⟨h1, h2⟩, h3⟩ := h
  rcases h3 with ⟨hdocx, hbad⟩ | ⟨⟨hnd, hx⟩, hbad⟩
  · obtain ⟨err, hm⟩ := isErrResult_true hbad
    simp [processFile, h1, h2, hdocx, hm]
  · obtain ⟨err, hm⟩ := isErrResult_true hbad
    rcases hx with hx | hx <;> simp [processFile, h1, h2, hnd, hx, hm]

/-- When a file does not hit a failing parse branch, its request segment is
never the diagnostic placeholder (it carries the real inline binary or
extracted text). -/
theorem processFile_ok_ne_placeholder (o : ExtractOracles) (f : FileModel)
    (h : failsExtraction o f = false) :
    toRequestPart (processFile o f) ≠ RequestPart.text (errorPlaceholder f.name) := by
  have e1 : ("\n[Attached File Content: " : String).length = 25 := rfl
  have e2 : ("]\n" : String).length = 2 := rfl
  have e3 : ("\n[End of File: " : String).length = 15 := rfl
  have e4 : ("[Error parsing file: " : String).length = 21 := rfl
  have e5 : ("]" : String).length = 1 := rfl
  have e6 : ("[Skipped unsupported file: " : String).length = 27 := rfl
  have e7 : ("\n" : String).length = 1 := rfl
  by_cases h1 : f.mimeType = "application/pdf"
  · simp [processFile, h1, toRequestPart]
  by_cases h2 : strStartsWith f.mimeType "image/"
  · simp [processFile, h1, h2, toRequestPart]
  have h2' : strStartsWith f.mimeType "image/" = false := by simpa using h2
  by_cases h3 : strEndsWith f.name ".docx"
  · cases hm : o.mammoth f.bytes with
    | error err =>
      exfalso
      rw [failsExtraction] at h
      simp [h1, h2', h3, hm, isErrResult] at h
    | ok v =>
      simp only [processFile, if_neg h1, h2', Bool.false_eq_true, if_false, h3, if_true, hm,
        toRequestPart, Option.getD_some, ne_eq, RequestPart.text.injEq]
      apply str_len_ne
      simp only [String.length_append, errorPlaceholder, e1, e2, e3, e4, e5]
      omega
  have h3' : strEndsWith f.name ".docx" = false := by simpa using h3
  by_cases h4 : strEndsWith f.name ".xlsx" || strEndsWith f.name ".xls"
  · cases hm : o.xlsxRead f.bytes with
    | error err =>
      exfalso
      rw [failsExtraction] at h
      simp [h1, h2', h3', h4, hm, isErrResult] at h
    | ok sheets =>
      simp only [processFile, if_neg h1, h2', Bool.false_eq_true, if_false, h3', h4, if_true, hm,
        toRequestPart, Option.getD_some, ne_eq, RequestPart.text.injEq]
      apply str_len_ne
      simp only [String.length_append, errorPlaceholder, e1, e2, e3, e4, e5]
      omega
  have h4' : (strEndsWith f.name ".xlsx" || strEndsWith f.name ".xls") = false := by
    simpa using h4
  by_cases h5 : strStartsWith f.mimeType "text/"
  · simp only [processFile, if_neg h1, h2', Bool.false_eq_true, if_false, h3', h4', h5, if_true,
      toRequestPart, Option.getD_some, ne_eq, RequestPart.text.injEq]
    apply str_len_ne
    simp only [String.length_append, errorPlaceholder, e1, e2, e4, e5, e7]
    omega
  have h5' : strStartsWith f.mimeType "text/" = false := by simpa using h5
  simp only [processFile, if_neg h1, h2', Bool.false_eq_true, if_false, h3', h4', h5',
    toRequestPart, Option.getD_some, ne_eq, RequestPart.text.injEq]
  apply str_len_ne
  simp only [String.length_append, errorPlaceholder, e4, e5, e6]
  omega

/-- C7: for a batch of files in which exactly one file's extraction fails,
request assembly still produces one segment per file in input order: the
failing file's segment is the diagnostic placeholder naming that file, and
every other file's segment is its real processed content, never a
placeholder.  (`processFile` itself is a total function - extraction
failure is represented as data, never raised.) -/
theorem extraction_isolation (o : ExtractOracles) (pre post : List FileModel)
    (bad : FileModel) (hbad : failsExtraction o bad = true)
    (hpre : ∀ f ∈ pre, failsExtraction o f = false)
    (hpost : ∀ f ∈ post, failsExtraction o f = false) :
    (fileSegments o (pre ++ bad :: post)).length = (pre ++ bad :: post).length ∧
    fileSegments o (pre ++ bad :: post) =
      fileSegments o pre ++ RequestPart.text (errorPlaceholder bad.name) ::
        fileSegments o post ∧
    (∀ f ∈ pre, toRequestPart (processFile o f) ≠ RequestPart.text (errorPlaceholder f.name)) ∧
    (∀ f ∈ post, toRequestPart (processFile o f) ≠ RequestPart.text (errorPlaceholder f.name)) := by
  refine ⟨?_, ?_, ?_, ?_⟩
  · simp [fileSegments]
  · simp [fileSegments, processFile_of_fails o bad hbad, toRequestPart]
  · intro f hf
    exact processFile_ok_ne_placeholder o f (hpre f hf)
  · intro f hf
    exact processFile_ok_ne_placeholder o f (hpost f hf)

/-- The empty list is a prefix of every list. -/
theorem nil_isPrefixOf (l : List Char) : ([] : List Char).isPrefixOf l = true := by
  cases l <;> rfl

/-- A list is a prefix of itself extended by anything. -/
theorem isPrefixOf_self_append (l m : List Char) : l.isPrefixOf (l ++ m) = true := by
  induction l with
  | nil => rw [List.nil_append]; exact nil_isPrefixOf m
  | cons a l ih => simp [List.isPrefixOf, ih]

/-- A string is a prefix of itself extended by anything. -/
theorem isPre_append (a b : String) : isPre a (a ++ b) = true := by
  rw [isPre, String.data_append]
  exact isPrefixOf_self_append a.data b.data

/-- The empty string is a prefix of everything. -/
theorem isPre_empty_left (b : String) : isPre "" b = true :=
  nil_isPrefixOf b.data

/-- Every value the accumulator emits extends the initial accumulator by a
non-empty suffix. -/
theorem accumTexts_mem (ts : List String) : ∀ (init e : String),
    e ∈ (accumTexts init ts).2 → ∃ s, e = init ++ s ∧ s ≠ "" := by
  induction ts with
  | nil =>
    intro init e he
    simp [accumTexts] at he
  | cons t ts ih =>
    intro init e he
    by_cases ht : t = ""
    · exact ih init e (by simpa [accumTexts, ht] using he)
    · simp only [accumTexts, if_neg ht] at he
      rcases List.mem_cons.mp he with rfl | hmem
      · exact ⟨t, rfl, ht⟩
      · obtain ⟨s, rfl, hs⟩ := ih (init ++ t) e hmem
        refine ⟨t ++ s, (String.append_assoc init t s), ?_⟩
        intro hc
        have hlen := congrArg String.length hc
        rw [String.length_append] at hlen
        have hslen : s.length ≠ 0 := fun h0 => hs (str_length_zero h0)
        have h0 : ("" : String).length = 0 := rfl
        omega

/-- `chainRel` extends through a cons whose head relates to the next
element. -/
theorem chainRel_cons (R : String → String → Bool) (x : String) (l : List String)
    (hl : chainRel R l = true) (hx : ∀ e, l.head? = some e → R x e = true) :
    chainRel R (x :: l) = true := by
  cases l with
  | nil => rfl
  | cons e rest => simp [chainRel, hx e rfl, hl]

/-- The emission sequence of the stream accumulator is prefix-monotone. -/
theorem accumTexts_chain (ts : List String) : ∀ init : String,
    chainRel isPre (accumTexts init ts).2 = true := by
  induction ts with
  | nil => intro init; rfl
  | cons t ts ih =>
    intro init
    by_cases ht : t = ""
    · simpa [accumTexts, ht] using ih init
    · simp only [accumTexts, if_neg ht]
      apply chainRel_cons
      · exact ih (init ++ t)
      · intro e hhead
        have hmem : e ∈ (accumTexts (init ++ t) ts).2 := by
          cases hr : (accumTexts (init ++ t) ts).2 with
          | nil => rw [hr] at hhead; simp at hhead
          | cons e0 rest =>
            rw [hr] at hhead
            simp only [List.head?_cons, Option.some.injEq] at hhead
            subst hhead
            exact List.mem_cons_self _ _
        obtain ⟨s, rfl, _⟩ := accumTexts_mem ts (init ++ t) e hmem
        exact isPre_append (init ++ t) s

/-- The final accumulated text is the last emitted value (or the emission
list is empty and the accumulator is unchanged). -/
theorem accumTexts_last (ts : List String) : ∀ init : String,
    ((accumTexts init ts).2 = [] ∧ (accumTexts init ts).1 = init) ∨
    (accumTexts init ts).2.getLast? = some (accumTexts init ts).1 := by
  induction ts with
  | nil => intro init; left; exact ⟨rfl, rfl⟩
  | cons t ts ih =>
    intro init
    by_cases ht : t = ""
    · simpa [accumTexts, ht] using ih init
    · right
      rcases ih (init ++ t) with ⟨h2, h1⟩ | hlast
      · simp [accumTexts, ht, h2, h1]
      · cases hr : (accumTexts (init ++ t) ts).2 with
        | nil => rw [hr] at hlast; simp at hlast
        | cons e rest =>
          rw [hr] at hlast
          simp only [accumTexts, if_neg ht, hr]
          rw [List.getLast?_cons_cons]
          exact hlast

/-- `chainRel` survives appending one element related to the old last
element. -/
theorem chainRel_append_one : ∀ (l : List String) (x : String),
    chainRel isPre l = true →
    (∀ a, l.getLast? = some a → isPre a x = true) →
    chainRel isPre (l ++ [x]) = true := by
  intro l
  induction l with
  | nil => intro x _ _; rfl
  | cons e l ih =>
    intro x hc hlast
    cases l with
    | nil =>
      have h1 := hlast e rfl
      simp [chainRel, h1]
    | cons e2 l2 =>
      have hsplit : isPre e e2 = true ∧ chainRel isPre (e2 :: l2) = true := by
        simpa [chainRel, Bool.and_eq_true] using hc
      have htail := ih x hsplit.2 (fun a ha => hlast a (by
        rw [List.getLast?_cons_cons]; exact ha))
      rw [List.cons_append]
      have hstep : (e2 :: l2) ++ [x] = e2 :: (l2 ++ [x]) := List.cons_append e2 l2 [x]
      rw [hstep] at htail
      simp [chainRel, hsplit.1, htail]

/-- The `forEach`-with-`Set` fold over grounding chunks computes exactly
the first-seen deduplication of the valid references: the final source
list appends one entry per first-seen valid reference, and the seen set
collects their uris. -/
theorem collect_foldl (gcs : List GroundingChunk) : ∀ (seen out : List String),
    gcs.foldl collectStep (seen, out) =
      (((firstSeenRefs seen (validRefs gcs)).map WebRef.uri).reverse ++ seen,
       out ++ (firstSeenRefs seen (validRefs gcs)).map sourceEntry) := by
  induction gcs with
  | nil =>
    intro seen out
    simp [validRefs, firstSeenRefs]
  | cons c gcs ih =>
    intro seen out
    rw [List.foldl_cons]
    cases hv : validWeb c with
    | none =>
      have hstep : collectStep (seen, out) c = (seen, out) := by
        cases hw : c.web with
        | none => simp [collectStep, hw]
        | some w =>
          simp only [validWeb, hw] at hv
          by_cases hcond : w.uri ≠ "" ∧ w.title ≠ ""
          · rw [if_pos hcond] at hv; exact absurd hv (by simp)
          · simp [collectStep, hw, hcond]
      rw [hstep, ih seen out]
      have hrefs : validRefs (c :: gcs) = validRefs gcs := by
        simp [validRefs, List.filterMap_cons, hv]
      rw [hrefs]
    | some w =>
      obtain ⟨hw, hcond⟩ : c.web = some w ∧ (w.uri ≠ "" ∧ w.title ≠ "") := by
        cases hw : c.web with
        | none => simp [validWeb, hw] at hv
        | some w' =>
          simp only [validWeb, hw] at hv
          by_cases hcond : w'.uri ≠ "" ∧ w'.title ≠ ""
          · rw [if_pos hcond] at hv
            obtain rfl : w' = w := by simpa using hv
            exact ⟨rfl, hcond⟩
          · rw [if_neg hcond] at hv
            exact absurd hv (by simp)
      have hrefs : validRefs (c :: gcs) = w :: validRefs gcs := by
        simp [validRefs, List.filterMap_cons, hv]
      rw [hrefs]
      by_cases hmem : w.uri ∈ seen
      · have hstep : collectStep (seen, out) c = (seen, out) := by
          simp only [collectStep, hw]
          rw [if_pos hcond]
          simp [hmem]
        rw [hstep, ih seen out]
        rw [firstSeenRefs, if_pos hmem]
      · have hstep : collectStep (seen, out) c =
            (w.uri :: seen, out ++ [sourceEntry w]) := by
          simp only [collectStep, hw]
          rw [if_pos hcond]
          simp [hmem]
        rw [hstep, ih (w.uri :: seen) (out ++ [sourceEntry w])]
        rw [firstSeenRefs, if_neg hmem]
        simp [List.append_assoc]

/-- First-seen deduplication produces pairwise-distinct uris, none of which
were already seen. -/
theorem firstSeen_nodup : ∀ (ws : List WebRef) (seen : List String),
    ((firstSeenRefs seen ws).map WebRef.uri).Nodup ∧
    ∀ u ∈ (firstSeenRefs seen ws).map WebRef.uri, u ∉ seen := by
  intro ws
  induction ws with
  | nil => intro seen; exact ⟨List.nodup_nil, by simp [firstSeenRefs]⟩
  | cons w ws ih =>
    intro seen
    by_cases hmem : w.uri ∈ seen
    · rw [firstSeenRefs, if_pos hmem]
      exact ih seen
    · rw [firstSeenRefs, if_neg hmem]
      obtain ⟨hnd, hout⟩ := ih (w.uri :: seen)
      refine ⟨?_, ?_⟩
      · rw [List.map_cons, List.nodup_cons]
        refine ⟨fun hcon => ?_, hnd⟩
        have := hout w.uri hcon
        simp at this
      · intro u hu
        rw [List.map_cons, List.mem_cons] at hu
        rcases hu with rfl | hu
        · exact hmem
        · have := hout u hu
          intro hcon
          exact this (List.mem_cons_of_mem _ hcon)

/-- A uri survives first-seen deduplication iff it occurs among the refs
and was not already seen. -/
theorem firstSeen_mem : ∀ (ws : List WebRef) (seen : List String) (u : String),
    u ∈ (firstSeenRefs seen ws).map WebRef.uri ↔
      (u ∈ ws.map WebRef.uri ∧ u ∉ seen) := by
  intro ws
  induction ws with
  | nil => intro seen u; simp [firstSeenRefs]
  | cons w ws ih =>
    intro seen u
    by_cases hmem : w.uri ∈ seen
    · rw [firstSeenRefs, if_pos hmem, ih seen u, List.map_cons]
      constructor
      · rintro ⟨h1, h2⟩
        exact ⟨List.mem_cons_of_mem _ h1, h2⟩
      · rintro ⟨h1, h2⟩
        rcases List.mem_cons.mp h1 with rfl | h1
        · exact absurd hmem h2
        · exact ⟨h1, h2⟩
    · rw [firstSeenRefs, if_neg hmem, List.map_cons, List.map_cons]
      constructor
      · intro h
        rcases List.mem_cons.mp h with rfl | h
        · exact ⟨List.mem_cons_self _ _, hmem⟩
        · obtain ⟨h1, h2⟩ := (ih (w.uri :: seen) u).mp h
          refine ⟨List.mem_cons_of_mem _ h1, fun hcon => h2 (List.mem_cons_of_mem _ hcon)⟩
      · rintro ⟨h1, h2⟩
        rcases List.mem_cons.mp h1 with rfl | h1
        · exact List.mem_cons_self _ _
        · by_cases hequ : u = w.uri
          · subst hequ; exact List.mem_cons_self _ _
          · refine List.mem_cons_of_mem _ ((ih (w.uri :: seen) u).mpr ⟨h1, ?_⟩)
            intro hcon
            rcases List.mem_cons.mp hcon with h | h
            · exact hequ h
            · exact h2 h

/-- The source list computed by the stream post-processing is the entry
list of the first-seen deduplicated valid references. -/
theorem sourceLinesOf_eq (chunks : List GenChunk) :
    sourceLinesOf chunks =
      (firstSeenRefs [] (validRefs (groundingListOf chunks))).map sourceEntry := by
  rw [sourceLinesOf, groundingListOf]
  cases hm : finalGrounding chunks with
  | none => simp [validRefs, firstSeenRefs]
  | some m =>
    cases hg : m.groundingChunks with
    | none => simp [hg, validRefs, firstSeenRefs]
    | some gcs =>
      simp only [hg, Option.getD_some]
      rw [show collectSources gcs = gcs.foldl collectStep ([], []) from rfl,
        collect_foldl gcs [] []]
      simp

/-- C3: for every streamed chunk sequence consumed by `generateReport` with
a progress callback, the emitted callback values are prefix-monotone
(never shorter), the last emitted value equals the final text, the final
text is the accumulated stream text plus (exactly when citations are
present) a single appended sources section that is re-emitted once after
streaming completes, and that section lists each unique locator exactly
once, in first-seen order. -/
theorem generateReport_streaming (chunks : List GenChunk) :
    chainRel isPre (genStream chunks).2 = true ∧
    ((genStream chunks).2 ≠ [] → (genStream chunks).2.getLast? = some (genStream chunks).1) ∧
    (genStream chunks).1 =
      (accumTexts "" (chunks.map (fun c => c.text))).1 ++
        (if sourceLinesOf chunks = [] then ""
         else sourcesHeader ++ joinWith "\n" (sourceLinesOf chunks)) ∧
    (genStream chunks).2 =
      (accumTexts "" (chunks.map (fun c => c.text))).2 ++
        (if sourceLinesOf chunks = [] then [] else [(genStream chunks).1]) ∧
    sourceLinesOf chunks =
      (firstSeenRefs [] (validRefs (groundingListOf chunks))).map sourceEntry ∧
    ((firstSeenRefs [] (validRefs (groundingListOf chunks))).map WebRef.uri).Nodup ∧
    (∀ u, u ∈ (firstSeenRefs [] (validRefs (groundingListOf chunks))).map WebRef.uri ↔
      u ∈ (validRefs (groundingListOf chunks)).map WebRef.uri) := by
  refine ⟨?_, ?_, ?_, ?_, sourceLinesOf_eq chunks,
    (firstSeen_nodup (validRefs (groundingListOf chunks)) []).1, ?_⟩
  · by_cases hl : sourceLinesOf chunks = []
    · simp only [genStream, hl, if_pos rfl]
      exact accumTexts_chain (chunks.map (fun c => c.text)) ""
    · simp only [genStream, if_neg hl]
      apply chainRel_append_one
      · exact accumTexts_chain (chunks.map (fun c => c.text)) ""
      · intro a ha
        rcases accumTexts_last (chunks.map (fun c => c.text)) "" with ⟨h2, _⟩ | hlast
        · rw [h2] at ha; simp at ha
        · rw [hlast] at ha
          obtain rfl := Option.some.inj ha
          exact isPre_append _ _
  · intro hne
    by_cases hl : sourceLinesOf chunks = []
    · simp only [genStream, hl, if_pos rfl] at hne ⊢
      rcases accumTexts_last (chunks.map (fun c => c.text)) "" with ⟨h2, _⟩ | hlast
      · exact absurd h2 hne
      · exact hlast
    · simp only [genStream, if_neg hl]
      exact List.getLast?_concat _
  · by_cases hl : sourceLinesOf chunks = []
    · simp [genStream, hl]
    · simp [genStream, hl]
  · by_cases hl : sourceLinesOf chunks = []
    · simp [genStream, hl]
    · simp [genStream, hl]
  · intro u
    rw [firstSeen_mem (validRefs (groundingListOf chunks)) [] u]
    simp

/-- Witness for C3 at a concrete three-chunk stream carrying two text
deltas, a skipped empty delta, and grounding metadata with a duplicated
locator. -/
theorem generateReport_streaming_witness :
    (genStream sampleGenChunks).2 ≠ [] ∧
    (chainRel isPre (genStream sampleGenChunks).2 = true ∧
     (genStream sampleGenChunks).2.getLast? = some (genStream sampleGenChunks).1 ∧
     (genStream sampleGenChunks).1 =
       (accumTexts "" (sampleGenChunks.map (fun c => c.text))).1 ++
         (if sourceLinesOf sampleGenChunks = [] then ""
          else sourcesHeader ++ joinWith "\n" (sourceLinesOf sampleGenChunks))) :=
  have h := generateReport_streaming sampleGenChunks
  ⟨by decide, h.1, h.2.1 (by decide), h.2.2.1⟩

/-- A non-empty string has a non-empty character list. -/
theorem str_data_ne_nil {a : String} (h : a ≠ "") : a.data ≠ [] := by
  intro hd
  apply h
  cases a with
  | mk d =>
    simp only [String.data] at hd
    rw [hd]

/-- A non-empty string is not a prefix of the empty string. -/
theorem isPre_to_empty {a : String} (h : a ≠ "") : isPre a "" = false := by
  rw [isPre]
  cases hda : a.data with
  | nil => exact absurd hda (str_data_ne_nil h)
  | cons c l => rfl

/-- A chain is broken by inserting an element unrelated to the last element
of the list before it. -/
theorem chainRel_break : ∀ (l : List String) (a b : String) (m : List String),
    l.getLast? = some a → isPre a b = false →
    chainRel isPre (l ++ b :: m) = false := by
  intro l
  induction l with
  | nil =>
    intro a b m h _
    simp at h
  | cons x l ih =>
    intro a b m h hab
    cases l with
    | nil =>
      obtain rfl : a = x := by simpa using h.symm
      simp [chainRel, hab]
    | cons x2 l2 =>
      rw [List.getLast?_cons_cons] at h
      have ht := ih a b m h hab
      rw [List.cons_append]
      have hstep : (x2 :: l2) ++ b :: m = x2 :: (l2 ++ b :: m) :=
        List.cons_append x2 l2 (b :: m)
      rw [hstep] at ht
      simp [chainRel, ht]

/-- Folding the capture step over chunks without function calls leaves the
capture unchanged. -/
theorem captureStep_foldl_empty (cs : List ChatChunk) : ∀ acc : Option FunctionCall,
    (∀ c ∈ cs, c.functionCalls = []) → cs.foldl captureStep acc = acc := by
  induction cs with
  | nil => intro acc _; rfl
  | cons c cs ih =>
    intro acc hall
    rw [List.foldl_cons]
    have hc : c.functionCalls = [] := hall c (List.mem_cons_self _ _)
    have hstep : captureStep acc c = acc := by simp [captureStep, hc]
    rw [hstep]
    exact ih acc (fun c' hc' => hall c' (List.mem_cons_of_mem _ hc'))

/-- The capture over a stream whose last call-carrying chunk is `c` is the
first invocation of `c`. -/
theorem capturedCall_append_last (pre post : List ChatChunk) (c : ChatChunk)
    (fc : FunctionCall) (rest : List FunctionCall)
    (hc : c.functionCalls = fc :: rest)
    (hpost : ∀ c' ∈ post, c'.functionCalls = []) :
    capturedCall (pre ++ c :: post) = some fc := by
  rw [capturedCall, List.foldl_append, List.foldl_cons]
  have hstep : captureStep (pre.foldl captureStep none) c = some fc := by
    simp [captureStep, hc]
  rw [hstep]
  exact captureStep_foldl_empty post (some fc) hpost

/-- When a stream carries exactly one invocation in total, that invocation
is the captured one. -/
theorem capturedCall_of_single : ∀ (chunks : List ChatChunk) (fc : FunctionCall),
    (chunks.map (fun c => c.functionCalls)).flatten = [fc] →
    capturedCall chunks = some fc := by
  intro chunks
  induction chunks with
  | nil => intro fc h; simp at h
  | cons c cs ih =>
    intro fc h
    rw [List.map_cons, List.flatten_cons] at h
    cases hc : c.functionCalls with
    | nil =>
      rw [hc, List.nil_append] at h
      rw [capturedCall, List.foldl_cons]
      have hstep : captureStep none c = none := by simp [captureStep, hc]
      rw [hstep]
      exact ih fc h
    | cons f rest =>
      rw [hc, List.cons_append] at h
      obtain ⟨rfl, h2⟩ : f = fc ∧ rest ++ (cs.map (fun c => c.functionCalls)).flatten = [] := by
        have := List.cons.injEq f (rest ++ (cs.map (fun c => c.functionCalls)).flatten) fc []
        rw [this] at h
        exact h
      obtain ⟨hrest, hflat⟩ := List.append_eq_nil.mp h2
      have hall : ∀ c' ∈ cs, c'.functionCalls = [] := by
        intro c' hc'
        have : c'.functionCalls ∈ cs.map (fun c => c.functionCalls) :=
          List.mem_map_of_mem _ hc'
        exact List.flatten_eq_nil_iff.mp hflat _ this
      rw [capturedCall, List.foldl_cons]
      have hstep : captureStep none c = some f := by simp [captureStep, hc]
      rw [hstep]
      exact captureStep_foldl_empty cs (some f) hall

/-- C4: a turn whose model reply carries exactly one `updateReport`
invocation with argument `newContent = X` returns `updatedReport = X`, its
reply text is the post-acknowledgment narration when non-empty and the
fixed fallback text otherwise (any pre-tool-call text is discarded), and
the single acknowledgment sent back carries the invocation's id. -/
theorem sendMessage_tool_handshake (chunks chunks2 : List ChatChunk) (fc : FunctionCall)
    (hone : (chunks.map (fun c => c.functionCalls)).flatten = [fc])
    (hname : fc.name = "updateReport") :
    (sendMessagePure (.ok chunks) (.ok chunks2)).updatedReport = some fc.newContent ∧
    (sendMessagePure (.ok chunks) (.ok chunks2)).responseText =
      (if (accumTexts "" (chunks2.map (fun c => c.text))).1 = "" then fallbackText
       else (accumTexts "" (chunks2.map (fun c => c.text))).1) ∧
    (sendMessagePure (.ok chunks) (.ok chunks2)).acks =
      [⟨"updateReport", "Success", fc.id⟩] := by
  have hcap := capturedCall_of_single chunks fc hone
  simp [sendMessagePure, hcap, hname]

/-- Witness for C4: one invocation inside the single reply chunk, followed
by a non-empty narration stream. -/
theorem sendMessage_tool_handshake_witness :
    ((([⟨"I will update", [⟨"updateReport", "NEW", "id7"⟩]⟩] : List ChatChunk).map
        (fun c => c.functionCalls)).flatten = [⟨"updateReport", "NEW", "id7"⟩] ∧
     FunctionCall.name ⟨"updateReport", "NEW", "id7"⟩ = "updateReport") ∧
    ((sendMessagePure (.ok [⟨"I will update", [⟨"updateReport", "NEW", "id7"⟩]⟩])
        (.ok [⟨"Done!", []⟩])).updatedReport =
      some (FunctionCall.newContent ⟨"updateReport", "NEW", "id7"⟩) ∧
     (sendMessagePure (.ok [⟨"I will update", [⟨"updateReport", "NEW", "id7"⟩]⟩])
        (.ok [⟨"Done!", []⟩])).responseText =
      (if (accumTexts "" (([⟨"Done!", []⟩] : List ChatChunk).map (fun c => c.text))).1 = ""
       then fallbackText
       else (accumTexts "" (([⟨"Done!", []⟩] : List ChatChunk).map (fun c => c.text))).1) ∧
     (sendMessagePure (.ok [⟨"I will update", [⟨"updateReport", "NEW", "id7"⟩]⟩])
        (.ok [⟨"Done!", []⟩])).acks =
      [⟨"updateReport", "Success", FunctionCall.id ⟨"updateReport", "NEW", "id7"⟩⟩]) :=
  ⟨⟨by decide, rfl⟩,
   sendMessage_tool_handshake [⟨"I will update", [⟨"updateReport", "NEW", "id7"⟩]⟩]
     [⟨"Done!", []⟩] ⟨"updateReport", "NEW", "id7"⟩ (by decide) rfl⟩

/-- C8 (amended): when several invocations appear in one turn, exactly one
is serviced - the first invocation of the last streamed chunk that carries
any invocations: its `newContent` is returned as `updatedReport` and
exactly one acknowledgment (bearing its id) is sent back; all other
invocations have no effect. -/
theorem sendMessage_services_last_capture (pre post chunks2 : List ChatChunk)
    (c : ChatChunk) (fc : FunctionCall) (rest : List FunctionCall)
    (hc : c.functionCalls = fc :: rest)
    (hpost : ∀ c' ∈ post, c'.functionCalls = [])
    (hname : fc.name = "updateReport") :
    (sendMessagePure (.ok (pre ++ c :: post)) (.ok chunks2)).updatedReport =
      some fc.newContent ∧
    (sendMessagePure (.ok (pre ++ c :: post)) (.ok chunks2)).acks =
      [⟨"updateReport", "Success", fc.id⟩] := by
  have hcap := capturedCall_append_last pre post c fc rest hc hpost
  simp [sendMessagePure, hcap, hname]

/-- C8 counterexample: two streamed chunks, each carrying one
`updateReport` invocation - the second invocation is serviced, not the
first one that appears. -/
theorem sendMessage_multi_call_counterexample :
    (sendMessagePure
        (.ok [⟨"", [⟨"updateReport", "A", "id1"⟩]⟩, ⟨"", [⟨"updateReport", "B", "id2"⟩]⟩])
        (.ok [])).updatedReport ≠ some "A" ∧
    (sendMessagePure
        (.ok [⟨"", [⟨"updateReport", "A", "id1"⟩]⟩, ⟨"", [⟨"updateReport", "B", "id2"⟩]⟩])
        (.ok [])).updatedReport = some "B" ∧
    (sendMessagePure
        (.ok [⟨"", [⟨"updateReport", "A", "id1"⟩]⟩, ⟨"", [⟨"updateReport", "B", "id2"⟩]⟩])
        (.ok [])).acks = [⟨"updateReport", "Success", "id2"⟩] := by
  refine ⟨by decide, by decide, by decide⟩

/-- Witness for C8 (amended) at a concrete two-chunk reply whose earlier
invocation is superseded by the later chunk's invocation. -/
theorem sendMessage_services_last_capture_witness :
    ((ChatChunk.functionCalls ⟨"", [⟨"updateReport", "B", "id2"⟩]⟩ =
        (⟨"updateReport", "B", "id2"⟩ : FunctionCall) :: [] ∧
      (∀ c' ∈ ([] : List ChatChunk), c'.functionCalls = []) ∧
      FunctionCall.name ⟨"updateReport", "B", "id2"⟩ = "updateReport") ∧
     ((sendMessagePure
          (.ok ([⟨"", [⟨"updateReport", "A", "id1"⟩]⟩] ++
            (⟨"", [⟨"updateReport", "B", "id2"⟩]⟩ : ChatChunk) :: []))
          (.ok [⟨"ok", []⟩])).updatedReport =
        some (FunctionCall.newContent ⟨"updateReport", "B", "id2"⟩) ∧
      (sendMessagePure
          (.ok ([⟨"", [⟨"updateReport", "A", "id1"⟩]⟩] ++
            (⟨"", [⟨"updateReport", "B", "id2"⟩]⟩ : ChatChunk) :: []))
          (.ok [⟨"ok", []⟩])).acks =
        [⟨"updateReport", "Success", FunctionCall.id ⟨"updateReport", "B", "id2"⟩⟩])) :=
  ⟨⟨rfl, by decide, rfl⟩,
   sendMessage_services_last_capture [⟨"", [⟨"updateReport", "A", "id1"⟩]⟩] []
     [⟨"ok", []⟩] ⟨"", [⟨"updateReport", "B", "id2"⟩]⟩ ⟨"updateReport", "B", "id2"⟩ []
     rfl (by decide) rfl⟩

/-- C1 (amended): when the acknowledgment round-trip fails, the
already-extracted document is discarded - `sendMessage` returns no
`updatedReport` at all, and the reply text is the error's classified
human-readable message when it is a recognized quota/credential/system
message, otherwise the generic apology fallback. -/
theorem sendMessage_ack_failure_discards (chunks : List ChatChunk) (fc : FunctionCall)
    (e : RetryError)
    (hcap : capturedCall chunks = some fc) (hname : fc.name = "updateReport") :
    (sendMessagePure (.ok chunks) (.error e)).updatedReport = none ∧
    (sendMessagePure (.ok chunks) (.error e)).responseText =
      (if catchCond e.message then e.message else apologyText) := by
  simp [sendMessagePure, hcap, hname, catchResult]
  by_cases hcond : catchCond e.message
  · simp [hcond]
  · simp [hcond]

/-- C1 counterexample: the reply stream carries an `updateReport`
invocation with `newContent = "NEW"`, then the acknowledgment round-trip
fails with the quota-exhausted condition - the extracted document is NOT
returned as `updatedReport`. -/
theorem sendMessage_ack_failure_counterexample :
    (sendMessagePure (.ok [⟨"", [⟨"updateReport", "NEW", "id1"⟩]⟩])
        (.error (.fresh quotaMsg))).updatedReport ≠ some "NEW" ∧
    (sendMessagePure (.ok [⟨"", [⟨"updateReport", "NEW", "id1"⟩]⟩])
        (.error (.fresh quotaMsg))).updatedReport = none := by
  refine ⟨by decide, by decide⟩

/-- Witness for C1 (amended) at a concrete failing acknowledgment. -/
theorem sendMessage_ack_failure_witness :
    (capturedCall [⟨"", [⟨"updateReport", "NEW", "id9"⟩]⟩] =
        some ⟨"updateReport", "NEW", "id9"⟩ ∧
     FunctionCall.name ⟨"updateReport", "NEW", "id9"⟩ = "updateReport") ∧
    ((sendMessagePure (.ok [⟨"", [⟨"updateReport", "NEW", "id9"⟩]⟩])
        (.error (.fresh "boom"))).updatedReport = none ∧
     (sendMessagePure (.ok [⟨"", [⟨"updateReport", "NEW", "id9"⟩]⟩])
        (.error (.fresh "boom"))).responseText =
      (if catchCond (RetryError.message (.fresh "boom"))
       then RetryError.message (.fresh "boom") else apologyText)) :=
  ⟨⟨by decide, rfl⟩,
   sendMessage_ack_failure_discards [⟨"", [⟨"updateReport", "NEW", "id9"⟩]⟩]
     ⟨"updateReport", "NEW", "id9"⟩ (.fresh "boom") (by decide) rfl⟩

/-- C2: `sendMessage` never propagates a failure - whichever exchange
throws, the turn still resolves to a returned reply whose text is the
thrown error's message when that message is a recognized
quota/credential/system classification, and the generic apology otherwise;
in particular the reply text is never empty, and the quota-exhausted and
credential-invalid conditions surface their own human-readable messages. -/
theorem sendMessage_absorbs_failures (e : RetryError)
    (second : Except RetryError (List ChatChunk))
    (chunks : List ChatChunk) (fc : FunctionCall)
    (hcap : capturedCall chunks = some fc) (hname : fc.name = "updateReport") :
    (sendMessagePure (.error e) second).responseText = (catchResult e).responseText ∧
    (sendMessagePure (.ok chunks) (.error e)).responseText =
      (catchResult e).responseText ∧
    (catchResult e).responseText ≠ "" ∧
    (catchResult (.fresh quotaMsg)).responseText = quotaMsg ∧
    (catchResult (.fresh credMsg)).responseText = credMsg := by
  refine ⟨rfl, by simp [sendMessagePure, hcap, hname], ?_, by decide, by decide⟩
  rw [catchResult]
  by_cases hcond : catchCond e.message
  · rw [if_pos hcond]
    have hne : e.message ≠ "" := by
      rw [catchCond] at hcond
      simp only [Bool.and_eq_true, Bool.not_eq_true', beq_eq_false_iff_ne, ne_eq] at hcond
      exact hcond.1
    simpa using hne
  · rw [if_neg hcond]
    decide

/-- Witness for C2 at a concrete turn whose acknowledgment round-trip
throws the quota-exhausted condition. -/
theorem sendMessage_absorbs_failures_witness :
    (capturedCall [⟨"t", [⟨"updateReport", "X", "id3"⟩]⟩] =
        some ⟨"updateReport", "X", "id3"⟩ ∧
     FunctionCall.name ⟨"updateReport", "X", "id3"⟩ = "updateReport") ∧
    ((sendMessagePure (.error (.fresh quotaMsg))
        (.ok ([] : List ChatChunk))).responseText =
      (catchResult (.fresh quotaMsg)).responseText ∧
     (sendMessagePure (.ok [⟨"t", [⟨"updateReport", "X", "id3"⟩]⟩])
        (.error (.fresh quotaMsg))).responseText =
      (catchResult (.fresh quotaMsg)).responseText ∧
     (catchResult (.fresh quotaMsg)).responseText ≠ "" ∧
     (catchResult (.fresh quotaMsg)).responseText = quotaMsg ∧
     (catchResult (.fresh credMsg)).responseText = credMsg) :=
  ⟨⟨by decide, rfl⟩,
   sendMessage_absorbs_failures (.fresh quotaMsg) (.ok ([] : List ChatChunk))
     [⟨"t", [⟨"updateReport", "X", "id3"⟩]⟩] ⟨"updateReport", "X", "id3"⟩
     (by decide) rfl⟩

/-- C10: when a streaming callback is supplied and an `updateReport` tool
call is serviced, the callback is invoked with the empty string between
the two streaming phases; each phase's emissions are prefix-monotone, but
whenever any pre-tool text was emitted the full emission sequence of the
turn is not prefix-monotone - it resets at the phase boundary. -/
theorem sendMessage_stream_reset (chunks chunks2 : List ChatChunk) (fc : FunctionCall)
    (hcap : capturedCall chunks = some fc) (hname : fc.name = "updateReport") :
    (sendMessagePure (.ok chunks) (.ok chunks2)).emissions =
      (accumTexts "" (chunks.map (fun c => c.text))).2 ++
        "" :: (accumTexts "" (chunks2.map (fun c => c.text))).2 ∧
    chainRel isPre (accumTexts "" (chunks.map (fun c => c.text))).2 = true ∧
    chainRel isPre ("" :: (accumTexts "" (chunks2.map (fun c => c.text))).2) = true ∧
    ((accumTexts "" (chunks.map (fun c => c.text))).2 ≠ [] →
      chainRel isPre (sendMessagePure (.ok chunks) (.ok chunks2)).emissions = false) := by
  refine ⟨by simp [sendMessagePure, hcap, hname], ?_, ?_, ?_⟩
  · exact accumTexts_chain (chunks.map (fun c => c.text)) ""
  · apply chainRel_cons
    · exact accumTexts_chain (chunks2.map (fun c => c.text)) ""
    · intro e _
      exact isPre_empty_left e
  · intro hne
    have hemt : (sendMessagePure (.ok chunks) (.ok chunks2)).emissions =
        (accumTexts "" (chunks.map (fun c => c.text))).2 ++
          "" :: (accumTexts "" (chunks2.map (fun c => c.text))).2 := by
      simp [sendMessagePure, hcap, hname]
    rw [hemt]
    rcases accumTexts_last (chunks.map (fun c => c.text)) "" with ⟨h2, _⟩ | hlast
    · exact absurd h2 hne
    · have hamem := mem_of_getLast? _ _ hlast
      obtain ⟨s, hs, hsne⟩ := accumTexts_mem (chunks.map (fun c => c.text)) "" _ hamem
      have hane : (accumTexts "" (chunks.map (fun c => c.text))).1 ≠ "" := by
        rw [hs]
        intro hcon
        have hlen := congrArg String.length hcon
        rw [String.length_append] at hlen
        have h0 : ("" : String).length = 0 := rfl
        have hslen : s.length ≠ 0 := fun hz => hsne (str_length_zero hz)
        omega
      exact chainRel_break _ _ "" _ hlast (isPre_to_empty hane)

/-- Witness for C10 at a turn that streams pre-tool text, services the
invocation, and streams a narration. -/
theorem sendMessage_stream_reset_witness :
    (capturedCall [⟨"Let me", [⟨"updateReport", "N", "id4"⟩]⟩] =
        some ⟨"updateReport", "N", "id4"⟩ ∧
     FunctionCall.name ⟨"updateReport", "N", "id4"⟩ = "updateReport" ∧
     (accumTexts "" (([⟨"Let me", [⟨"updateReport", "N", "id4"⟩]⟩] : List ChatChunk).map
        (fun c => c.text))).2 ≠ []) ∧
    ((sendMessagePure (.ok [⟨"Let me", [⟨"updateReport", "N", "id4"⟩]⟩])
        (.ok [⟨"done", []⟩])).emissions =
      (accumTexts "" (([⟨"Let me", [⟨"updateReport", "N", "id4"⟩]⟩] : List ChatChunk).map
        (fun c => c.text))).2 ++
        "" :: (accumTexts "" (([⟨"done", []⟩] : List ChatChunk).map (fun c => c.text))).2 ∧
     chainRel isPre (sendMessagePure (.ok [⟨"Let me", [⟨"updateReport", "N", "id4"⟩]⟩])
        (.ok [⟨"done", []⟩])).emissions = false) :=
  have h := sendMessage_stream_reset [⟨"Let me", [⟨"updateReport", "N", "id4"⟩]⟩]
    [⟨"done", []⟩] ⟨"updateReport", "N", "id4"⟩ (by decide) rfl
  ⟨⟨by decide, rfl, by decide⟩, h.1, h.2.2.2 (by decide)⟩

/-- Witness for C7: a two-file batch - a docx file whose parse fails
followed by a pdf file that succeeds. -/
theorem extraction_isolation_witness :
    (failsExtraction ⟨fun _ => "", fun _ => Except.error "x", fun _ => Except.ok [], fun _ => ""⟩
        ⟨"r.docx", "", []⟩ = true ∧
     (∀ f ∈ ([] : List FileModel),
        failsExtraction
          ⟨fun _ => "", fun _ => Except.error "x", fun _ => Except.ok [], fun _ => ""⟩
          f = false) ∧
     (∀ f ∈ [(⟨"p.pdf", "application/pdf", []⟩ : FileModel)],
        failsExtraction
          ⟨fun _ => "", fun _ => Except.error "x", fun _ => Except.ok [], fun _ => ""⟩
          f = false)) ∧
    ((fileSegments ⟨fun _ => "", fun _ => Except.error "x", fun _ => Except.ok [], fun _ => ""⟩
        ([] ++ ⟨"r.docx", "", []⟩ :: [⟨"p.pdf", "application/pdf", []⟩])).length =
      ([] ++ (⟨"r.docx", "", []⟩ : FileModel) :: [⟨"p.pdf", "application/pdf", []⟩]).length ∧
     fileSegments ⟨fun _ => "", fun _ => Except.error "x", fun _ => Except.ok [], fun _ => ""⟩
        ([] ++ ⟨"r.docx", "", []⟩ :: [⟨"p.pdf", "application/pdf", []⟩]) =
      fileSegments ⟨fun _ => "", fun _ => Except.error "x", fun _ => Except.ok [], fun _ => ""⟩
        [] ++ RequestPart.text (errorPlaceholder (FileModel.name ⟨"r.docx", "", []⟩)) ::
        fileSegments ⟨fun _ => "", fun _ => Except.error "x", fun _ => Except.ok [], fun _ => ""⟩
          [⟨"p.pdf", "application/pdf", []⟩] ∧
     (∀ f ∈ ([] : List FileModel),
        toRequestPart (processFile
          ⟨fun _ => "", fun _ => Except.error "x", fun _ => Except.ok [], fun _ => ""⟩ f) ≠
        RequestPart.text (errorPlaceholder f.name)) ∧
     (∀ f ∈ [(⟨"p.pdf", "application/pdf", []⟩ : FileModel)],
        toRequestPart (processFile
          ⟨fun _ => "", fun _ => Except.error "x", fun _ => Except.ok [], fun _ => ""⟩ f) ≠
        RequestPart.text (errorPlaceholder f.name))) :=
  ⟨⟨by decide, by decide, by decide⟩,
   extraction_isolation
     ⟨fun _ => "", fun _ => Except.error "x", fun _ => Except.ok [], fun _ => ""⟩
     [] [⟨"p.pdf", "application/pdf", []⟩] ⟨"r.docx", "", []⟩
     (by decide) (by decide) (by decide)⟩

end MPV
